import Mathlib

/-!
A verification development for the SPHinXsys neighbor-search and
particle-configuration subsystem, together with several particle-dynamics
kernels of the repository.  Real-valued quantities are embedded as exact
rationals; machine-epsilon-like constants are fixed small positive rationals
(their exact magnitude is immaterial to every statement proved here).
-/

/-- Machine epsilon `Eps` of the library (`std::numeric_limits<Real>::epsilon()`),
embedded as an exact small positive rational. -/
def Eps : ℚ := 1 / 2 ^ 52

/-- The library's `TinyReal` constant, embedded as a small positive rational. -/
def TinyReal : ℚ := 1 / 2 ^ 62

/-- A 3-component vector over ℚ, standing for the library's `Vecd`
in the `for_3D_build` configuration. -/
structure Vec3 where
  x : ℚ
  y : ℚ
  z : ℚ
deriving DecidableEq, Repr

/-- Componentwise subtraction of `Vec3`. -/
def Vec3.sub (a b : Vec3) : Vec3 := ⟨a.x - b.x, a.y - b.y, a.z - b.z⟩

/-- Componentwise addition of `Vec3`. -/
def Vec3.add (a b : Vec3) : Vec3 := ⟨a.x + b.x, a.y + b.y, a.z + b.z⟩

/-- Scalar multiplication of a `Vec3`. -/
def Vec3.smul (c : ℚ) (a : Vec3) : Vec3 := ⟨c * a.x, c * a.y, c * a.z⟩

/-- The zero vector. -/
def Vec3.zero : Vec3 := ⟨0, 0, 0⟩

/-- Squared Euclidean distance between two positions.  The library compares
the Euclidean distance against the cutoff radius; since both are nonnegative
this is equivalent to comparing the squares, which keeps the embedding in ℚ. -/
def Vec3.distSq (a b : Vec3) : ℚ :=
  (a.x - b.x) ^ 2 + (a.y - b.y) ^ 2 + (a.z - b.z) ^ 2

/-!
 ## Cell linked list (spatial partition) and neighbor search

`CellLinkedList.searchNeighborsByParticles` below is embedded from
`src/SPHINXsys/src/for_3D_build/meshes/cell_linked_list.hpp` lines 42-75:
for each particle, the cell index of its position is computed, and the three
nested loops scan cells `l ∈ [SMAX(i-d,0), SMIN(i+d,n-1)]` (and likewise for
the other two axes), handing every list entry of every scanned cell to the
neighbor relation.  `CellIndexFromPosition`, `updateCellLists` and the
neighbor-relation functor live outside `src/` and are modelled from the spec
where indicated.
-/

/-- The cell-linked-list mesh together with the (static) particle positions
it partitions.  `number_of_cells_` and `mesh_lower_bound_`, `grid_spacing_`
mirror the mesh data consumed by `searchNeighborsByParticles`; `search_depth_`
stands for the (here spatially uniform) value returned by `get_search_depth`,
and `cutoff_radius_` for the cutoff tested by the neighbor relation. -/
structure CellLinkedList where
  mesh_lower_bound_ : Vec3
  grid_spacing_ : ℚ
  number_of_cells_ : ℕ × ℕ × ℕ
  cutoff_radius_ : ℚ
  search_depth_ : ℕ
  pos_ : List Vec3

/-- Modelled from the spec: one axis of `CellIndexFromPosition` computes
`floor((pos - domain_lower_bound) / cell_size)` and clamps out-of-domain
positions to the valid cell bounds `[0, n-1]` (spec §4.1).  `Int.toNat`
realises the clamp at `0`, `min` the clamp at `n - 1`. -/
def cellAxisIndex (lb gs : ℚ) (n : ℕ) (x : ℚ) : ℕ :=
  min (Int.toNat (Int.floor ((x - lb) / gs))) (n - 1)

/-- Modelled from the spec: `CellIndexFromPosition` applies `cellAxisIndex`
on each of the three axes (spec §4.1). -/
def CellLinkedList.CellIndexFromPosition (sys : CellLinkedList) (v : Vec3) : ℕ × ℕ × ℕ :=
  (cellAxisIndex sys.mesh_lower_bound_.x sys.grid_spacing_ sys.number_of_cells_.1 v.x,
   cellAxisIndex sys.mesh_lower_bound_.y sys.grid_spacing_ sys.number_of_cells_.2.1 v.y,
   cellAxisIndex sys.mesh_lower_bound_.z sys.grid_spacing_ sys.number_of_cells_.2.2 v.z)

/-- A position lies inside the declared bounding box of the mesh on one axis. -/
def inDomainAxis (lb gs : ℚ) (n : ℕ) (x : ℚ) : Prop :=
  lb ≤ x ∧ x < lb + n * gs

instance (lb gs : ℚ) (n : ℕ) (x : ℚ) : Decidable (inDomainAxis lb gs n x) := by
  unfold inDomainAxis; infer_instance

/-- A position lies inside the declared bounding box of the mesh. -/
def CellLinkedList.InDomain (sys : CellLinkedList) (v : Vec3) : Prop :=
  inDomainAxis sys.mesh_lower_bound_.x sys.grid_spacing_ sys.number_of_cells_.1 v.x ∧
  inDomainAxis sys.mesh_lower_bound_.y sys.grid_spacing_ sys.number_of_cells_.2.1 v.y ∧
  inDomainAxis sys.mesh_lower_bound_.z sys.grid_spacing_ sys.number_of_cells_.2.2 v.z

instance (sys : CellLinkedList) (v : Vec3) : Decidable (sys.InDomain v) := by
  unfold CellLinkedList.InDomain; infer_instance

/-- The position of particle `i` (particles are identified by their array index). -/
def CellLinkedList.posOf (sys : CellLinkedList) (i : ℕ) : Vec3 :=
  sys.pos_.getD i Vec3.zero

/-- The inclusive integer range `[lo, hi]` as a list (empty when `hi < lo`). -/
def rangeIncl (lo hi : ℕ) : List ℕ :=
  (List.range (hi + 1 - lo)).map (lo + ·)

/-- The cells visited by the three nested loops of `searchNeighborsByParticles`
(source lines 62-64) around target cell `c`: per axis the loop runs from
`SMAX(i - search_depth, 0)` to `SMIN(i + search_depth, n - 1)`.  Natural-number
truncated subtraction realises `SMAX(i - d, 0)` exactly. -/
def CellLinkedList.scannedCells (sys : CellLinkedList) (c : ℕ × ℕ × ℕ) : List (ℕ × ℕ × ℕ) :=
  let d := sys.search_depth_
  (rangeIncl (c.1 - d) (min (c.1 + d) (sys.number_of_cells_.1 - 1))).flatMap fun l =>
    (rangeIncl (c.2.1 - d) (min (c.2.1 + d) (sys.number_of_cells_.2.1 - 1))).flatMap fun m =>
      (rangeIncl (c.2.2 - d) (min (c.2.2 + d) (sys.number_of_cells_.2.2 - 1))).map fun q =>
        (l, m, q)

/-- Modelled from the spec: `updateCellLists` clears every cell's particle
list and inserts each particle index into the cell its position maps to
(spec §4.1).  Functionally, the list for cell `c` is the list of particle
indices whose position maps to `c`. -/
def CellLinkedList.cellContents (sys : CellLinkedList) (c : ℕ × ℕ × ℕ) : List ℕ :=
  (List.range sys.pos_.length).filter fun i =>
    decide (sys.CellIndexFromPosition (sys.posOf i) = c)

/-- Modelled from the spec: the neighbor relation functor
`get_neighbor_relation` tests the cutoff distance and, if the candidate is
within range (and, for an inner relation, distinct from the particle itself),
appends a neighbor record (spec §4.2, §3). -/
def CellLinkedList.neighborRelationTest (sys : CellLinkedList) (q i : ℕ) : Bool :=
  decide (i ≠ q) &&
    decide (Vec3.distSq (sys.posOf i) (sys.posOf q) ≤ sys.cutoff_radius_ ^ 2)

/-- Embedded from `CellLinkedList::searchNeighborsByParticles`
(`cell_linked_list.hpp` lines 42-75): for particle `q`, compute the target
cell from its position, scan the clamped window of cells, and hand every
stored particle of every scanned cell to the neighbor relation, which
appends the candidates passing the cutoff test.  `cells` is the current
per-cell particle-index table (`cell_data_lists_`). -/
def CellLinkedList.searchNeighborsByParticles (sys : CellLinkedList)
    (cells : ℕ × ℕ × ℕ → List ℕ) (q : ℕ) : List ℕ :=
  (sys.scannedCells (sys.CellIndexFromPosition (sys.posOf q))).flatMap fun c =>
    (cells c).filter fun i => sys.neighborRelationTest q i

/-- The mutable state threaded through the driver's lifecycle calls: the mesh
with its particles, the per-cell particle lists (`cell_data_lists_`) and the
particle configuration (one neighbor-index list per particle). -/
structure SimState where
  sys : CellLinkedList
  cell_data_lists_ : ℕ × ℕ × ℕ → List ℕ
  particle_configuration_ : ℕ → List ℕ

/-- Modelled from the spec: `updateCellLists` clears all cell particle-lists
and repopulates them from the current particle positions (spec §4.1). -/
def SimState.updateCellLists (s : SimState) : SimState :=
  { s with cell_data_lists_ := s.sys.cellContents }

/-- `updateConfiguration` triggers the neighborhood builder to repopulate
every particle's neighborhood from the current cell lists; per the spec it
OVERWRITES the previous table rather than appending to it (spec §4.3, §4.2). -/
def SimState.updateConfiguration (s : SimState) : SimState :=
  { s with particle_configuration_ :=
      s.sys.searchNeighborsByParticles s.cell_data_lists_ }

/-- One full rebuild: `updateCellLists()` followed by `updateConfiguration()`. -/
def SimState.rebuild (s : SimState) : SimState :=
  s.updateCellLists.updateConfiguration

/-!
 ## Membership characterisations for the neighbor search
-/

theorem mem_rangeIncl {lo hi a : ℕ} : a ∈ rangeIncl lo hi ↔ lo ≤ a ∧ a ≤ hi := by
  unfold rangeIncl
  constructor
  · intro h
    rcases List.mem_map.mp h with ⟨b, hb, rfl⟩
    have := List.mem_range.mp hb
    omega
  · rintro ⟨h1, h2⟩
    exact List.mem_map.mpr ⟨a - lo, List.mem_range.mpr (by omega), by omega⟩

theorem mem_scannedCells {sys : CellLinkedList} {c cell : ℕ × ℕ × ℕ} :
    cell ∈ sys.scannedCells c ↔
      (c.1 - sys.search_depth_ ≤ cell.1 ∧
        cell.1 ≤ min (c.1 + sys.search_depth_) (sys.number_of_cells_.1 - 1)) ∧
      (c.2.1 - sys.search_depth_ ≤ cell.2.1 ∧
        cell.2.1 ≤ min (c.2.1 + sys.search_depth_) (sys.number_of_cells_.2.1 - 1)) ∧
      (c.2.2 - sys.search_depth_ ≤ cell.2.2 ∧
        cell.2.2 ≤ min (c.2.2 + sys.search_depth_) (sys.number_of_cells_.2.2 - 1)) := by
  unfold CellLinkedList.scannedCells
  constructor
  · intro h
    rcases List.mem_flatMap.mp h with ⟨l, hl, h⟩
    rcases List.mem_flatMap.mp h with ⟨m, hm, h⟩
    rcases List.mem_map.mp h with ⟨q, hq, rfl⟩
    exact ⟨mem_rangeIncl.mp hl, mem_rangeIncl.mp hm, mem_rangeIncl.mp hq⟩
  · rintro ⟨h1, h2, h3⟩
    refine List.mem_flatMap.mpr ⟨cell.1, mem_rangeIncl.mpr h1, ?_⟩
    refine List.mem_flatMap.mpr ⟨cell.2.1, mem_rangeIncl.mpr h2, ?_⟩
    exact List.mem_map.mpr ⟨cell.2.2, mem_rangeIncl.mpr h3, rfl⟩

theorem mem_cellContents {sys : CellLinkedList} {c : ℕ × ℕ × ℕ} {i : ℕ} :
    i ∈ sys.cellContents c ↔
      i < sys.pos_.length ∧ sys.CellIndexFromPosition (sys.posOf i) = c := by
  unfold CellLinkedList.cellContents
  rw [List.mem_filter, List.mem_range]
  simp

theorem mem_searchNeighbors {sys : CellLinkedList} {cells : ℕ × ℕ × ℕ → List ℕ} {q i : ℕ} :
    i ∈ sys.searchNeighborsByParticles cells q ↔
      ∃ c ∈ sys.scannedCells (sys.CellIndexFromPosition (sys.posOf q)),
        i ∈ cells c ∧ sys.neighborRelationTest q i = true := by
  unfold CellLinkedList.searchNeighborsByParticles
  rw [List.mem_flatMap]
  constructor
  · rintro ⟨c, hc, hmem⟩
    rcases List.mem_filter.mp hmem with ⟨h1, h2⟩
    exact ⟨c, hc, h1, h2⟩
  · rintro ⟨c, hc, h1, h2⟩
    exact ⟨c, hc, List.mem_filter.mpr ⟨h1, h2⟩⟩

theorem rebuild_configuration_eq (s : SimState) (q : ℕ) :
    s.rebuild.particle_configuration_ q =
      s.sys.searchNeighborsByParticles s.sys.cellContents q := rfl

/-- C1: after a rebuild, every particle appearing in `q`'s neighborhood passed
the cutoff test, so a particle at squared distance above the squared cutoff
never appears. -/
theorem neighbor_pass_cutoff {s : SimState} {q p : ℕ}
    (h : p ∈ s.rebuild.particle_configuration_ q) :
    Vec3.distSq (s.sys.posOf p) (s.sys.posOf q) ≤ s.sys.cutoff_radius_ ^ 2 := by
  rw [rebuild_configuration_eq] at h
  rcases mem_searchNeighbors.mp h with ⟨c, -, -, htest⟩
  unfold CellLinkedList.neighborRelationTest at htest
  rcases (Bool.and_eq_true _ _).mp htest with ⟨-, h2⟩
  exact of_decide_eq_true h2

/-!
 ## Completeness of the neighbor search for in-domain particles
-/

theorem distSq_comm (a b : Vec3) : Vec3.distSq a b = Vec3.distSq b a := by
  unfold Vec3.distSq; ring

theorem abs_component_le_of_distSq {a b : Vec3} {r : ℚ}
    (h : Vec3.distSq a b ≤ r ^ 2) (hr : 0 ≤ r) :
    |a.x - b.x| ≤ r ∧ |a.y - b.y| ≤ r ∧ |a.z - b.z| ≤ r := by
  unfold Vec3.distSq at h
  refine ⟨abs_le.mpr ⟨?_, ?_⟩, abs_le.mpr ⟨?_, ?_⟩, abs_le.mpr ⟨?_, ?_⟩⟩ <;>
    nlinarith [sq_nonneg (a.x - b.x), sq_nonneg (a.y - b.y), sq_nonneg (a.z - b.z)]

theorem cellAxisIndex_window {lb gs : ℚ} {n d : ℕ} {xp xq : ℚ}
    (hgs : 0 < gs)
    (hdx : |xp - xq| ≤ (d : ℚ) * gs)
    (hp : inDomainAxis lb gs n xp) (hq : inDomainAxis lb gs n xq) :
    cellAxisIndex lb gs n xq - d ≤ cellAxisIndex lb gs n xp ∧
      cellAxisIndex lb gs n xp ≤ min (cellAxisIndex lb gs n xq + d) (n - 1) := by
  obtain ⟨hp1, hp2⟩ := hp
  obtain ⟨hq1, hq2⟩ := hq
  obtain ⟨hdx1, hdx2⟩ := abs_le.mp hdx
  set fp : ℤ := Int.floor ((xp - lb) / gs) with hfp
  set fq : ℤ := Int.floor ((xq - lb) / gs) with hfq
  have hfp0 : 0 ≤ fp := Int.floor_nonneg.mpr (div_nonneg (by linarith) hgs.le)
  have hfq0 : 0 ≤ fq := Int.floor_nonneg.mpr (div_nonneg (by linarith) hgs.le)
  have hfpn : fp < (n : ℤ) := by
    rw [hfp]
    apply Int.floor_lt.mpr
    rw [div_lt_iff₀ hgs]
    push_cast
    linarith
  have hfqn : fq < (n : ℤ) := by
    rw [hfq]
    apply Int.floor_lt.mpr
    rw [div_lt_iff₀ hgs]
    push_cast
    linarith
  have hdiv1 : (xp - lb) / gs ≤ (xq - lb) / gs + (d : ℚ) := by
    have h1 : (xp - lb) / gs ≤ ((xq - lb) + (d : ℚ) * gs) / gs := by
      gcongr
      linarith
    have h2 : ((xq - lb) + (d : ℚ) * gs) / gs = (xq - lb) / gs + (d : ℚ) := by
      field_simp
    linarith
  have hdiv2 : (xq - lb) / gs ≤ (xp - lb) / gs + (d : ℚ) := by
    have h1 : (xq - lb) / gs ≤ ((xp - lb) + (d : ℚ) * gs) / gs := by
      gcongr
      linarith
    have h2 : ((xp - lb) + (d : ℚ) * gs) / gs = (xp - lb) / gs + (d : ℚ) := by
      field_simp
    linarith
  have hub : fp ≤ fq + (d : ℤ) := by
    have := Int.floor_le_floor hdiv1
    rwa [show ((d : ℚ)) = ((d : ℤ) : ℚ) by push_cast; ring, Int.floor_add_int] at this
  have hlb : fq ≤ fp + (d : ℤ) := by
    have := Int.floor_le_floor hdiv2
    rwa [show ((d : ℚ)) = ((d : ℤ) : ℚ) by push_cast; ring, Int.floor_add_int] at this
  unfold cellAxisIndex
  rw [← hfp, ← hfq]
  have e1 : ((fp.toNat : ℤ)) = fp := Int.toNat_of_nonneg hfp0
  have e2 : ((fq.toNat : ℤ)) = fq := Int.toNat_of_nonneg hfq0
  omega

theorem posOf_mem {sys : CellLinkedList} {i : ℕ} (h : i < sys.pos_.length) :
    sys.posOf i ∈ sys.pos_ := by
  unfold CellLinkedList.posOf
  rw [List.getD_eq_getElem _ _ h]
  exact List.getElem_mem h

theorem mem_neighbor_of_close {s : SimState} {p q : ℕ}
    (hgs : 0 < s.sys.grid_spacing_)
    (hc0 : 0 ≤ s.sys.cutoff_radius_)
    (hcut : s.sys.cutoff_radius_ ≤ (s.sys.search_depth_ : ℚ) * s.sys.grid_spacing_)
    (hdom : ∀ v ∈ s.sys.pos_, s.sys.InDomain v)
    (hp : p < s.sys.pos_.length) (hq : q < s.sys.pos_.length) (hne : p ≠ q)
    (hdist : Vec3.distSq (s.sys.posOf p) (s.sys.posOf q) ≤ s.sys.cutoff_radius_ ^ 2) :
    p ∈ s.rebuild.particle_configuration_ q := by
  rw [rebuild_configuration_eq]
  apply mem_searchNeighbors.mpr
  refine ⟨s.sys.CellIndexFromPosition (s.sys.posOf p), ?_, ?_, ?_⟩
  · -- the cell of p lies in the clamped window scanned around the cell of q
    obtain ⟨hx, hy, hz⟩ :=
      abs_component_le_of_distSq hdist hc0
    have hdp := hdom _ (posOf_mem hp)
    have hdq := hdom _ (posOf_mem hq)
    obtain ⟨hdp1, hdp2, hdp3⟩ := hdp
    obtain ⟨hdq1, hdq2, hdq3⟩ := hdq
    have hwx := cellAxisIndex_window (d := s.sys.search_depth_) hgs
      (le_trans hx hcut) hdp1 hdq1
    have hwy := cellAxisIndex_window (d := s.sys.search_depth_) hgs
      (le_trans hy hcut) hdp2 hdq2
    have hwz := cellAxisIndex_window (d := s.sys.search_depth_) hgs
      (le_trans hz hcut) hdp3 hdq3
    exact mem_scannedCells.mpr ⟨⟨hwx.1, hwx.2⟩, ⟨hwy.1, hwy.2⟩, ⟨hwz.1, hwz.2⟩⟩
  · exact mem_cellContents.mpr ⟨hp, rfl⟩
  · unfold CellLinkedList.neighborRelationTest
    rw [Bool.and_eq_true]
    exact ⟨decide_eq_true hne, decide_eq_true hdist⟩

/-- The spec's concrete scenario, embedded in the 3D build with `z = 0`:
particles at `(0,0)`, `(0, 0.5*cutoff)` and `(0, 2.0)` with `cutoff = 1.0`
and cell size `1.0`; the mesh covers the particles with three cells along
the y axis. -/
def scenarioSystem : CellLinkedList :=
  { mesh_lower_bound_ := ⟨0, 0, 0⟩
    grid_spacing_ := 1
    number_of_cells_ := (1, 3, 1)
    cutoff_radius_ := 1
    search_depth_ := 1
    pos_ := [⟨0, 0, 0⟩, ⟨0, 1/2, 0⟩, ⟨0, 2, 0⟩] }

/-- The scenario state before any lifecycle call: empty cell lists and an
empty configuration table. -/
def scenarioState : SimState :=
  { sys := scenarioSystem
    cell_data_lists_ := fun _ => []
    particle_configuration_ := fun _ => [] }

/-- C1: after a rebuild (`updateCellLists` followed by `updateConfiguration`)
on a static particle configuration, for every particle `q` and every particle
`p` whose distance from `q` exceeds the cutoff radius (equivalently, whose
squared distance exceeds the squared cutoff), `p` does not appear in the
Neighborhood of `q`. -/
theorem neighbor_search_no_false_positives (s : SimState) (q p : ℕ)
    (h : s.sys.cutoff_radius_ ^ 2 < Vec3.distSq (s.sys.posOf p) (s.sys.posOf q)) :
    p ∉ s.rebuild.particle_configuration_ q :=
  fun hm => absurd (neighbor_pass_cutoff hm) (not_le.mpr h)

/-- Witness for C1 at the spec's concrete scenario: the third particle, at
`(0, 2.0)`, appears in neither the first particle's nor the second particle's
Neighborhood after the rebuild. -/
theorem neighbor_search_no_false_positives_witness :
    2 ∉ scenarioState.rebuild.particle_configuration_ 0 ∧
      2 ∉ scenarioState.rebuild.particle_configuration_ 1 :=
  ⟨neighbor_search_no_false_positives scenarioState 0 2
      (by norm_num [scenarioState, scenarioSystem, CellLinkedList.posOf,
        Vec3.distSq, Vec3.zero]),
    neighbor_search_no_false_positives scenarioState 1 2
      (by norm_num [scenarioState, scenarioSystem, CellLinkedList.posOf,
        Vec3.distSq, Vec3.zero])⟩

/-- C2: after a rebuild on a static configuration whose particles lie in the
declared bounding box, with a cell size covering the cutoff within the search
depth, neighbor membership is symmetric: any two distinct particles within
cutoff radius of each other each appear in the other's Neighborhood. -/
theorem neighbor_search_symmetric (s : SimState) (p q : ℕ)
    (hgs : 0 < s.sys.grid_spacing_)
    (hc0 : 0 ≤ s.sys.cutoff_radius_)
    (hcut : s.sys.cutoff_radius_ ≤ (s.sys.search_depth_ : ℚ) * s.sys.grid_spacing_)
    (hdom : ∀ v ∈ s.sys.pos_, s.sys.InDomain v)
    (hp : p < s.sys.pos_.length) (hq : q < s.sys.pos_.length) (hne : p ≠ q)
    (hdist : Vec3.distSq (s.sys.posOf p) (s.sys.posOf q) ≤ s.sys.cutoff_radius_ ^ 2) :
    p ∈ s.rebuild.particle_configuration_ q ∧
      q ∈ s.rebuild.particle_configuration_ p :=
  ⟨mem_neighbor_of_close hgs hc0 hcut hdom hp hq hne hdist,
    mem_neighbor_of_close hgs hc0 hcut hdom hq hp hne.symm
      (by rwa [distSq_comm])⟩

/-- Witness for C2 at the spec's concrete scenario: the particles at `(0,0)`
and `(0, 0.5*cutoff)` are mutual neighbors after the rebuild. -/
theorem neighbor_search_symmetric_witness :
    1 ∈ scenarioState.rebuild.particle_configuration_ 0 ∧
      0 ∈ scenarioState.rebuild.particle_configuration_ 1 :=
  neighbor_search_symmetric scenarioState 1 0
    (by norm_num [scenarioState, scenarioSystem])
    (by norm_num [scenarioState, scenarioSystem])
    (by norm_num [scenarioState, scenarioSystem])
    (by
      intro v hv
      simp only [scenarioState, scenarioSystem, List.mem_cons,
        List.not_mem_nil, or_false] at hv
      rcases hv with rfl | rfl | rfl <;>
        norm_num [CellLinkedList.InDomain, inDomainAxis, scenarioState,
          scenarioSystem])
    (by norm_num [scenarioState, scenarioSystem])
    (by norm_num [scenarioState, scenarioSystem])
    (by norm_num)
    (by norm_num [scenarioState, scenarioSystem, CellLinkedList.posOf,
      Vec3.distSq, Vec3.zero])

/-- C3: every cell scanned by the neighbor search has each axis index inside
`[0, number_of_cells - 1]` (the `[0,·]` bound being inherent to the ℕ index),
and stays inside the particle's un-clamped search window `[c - d, c + d]`:
the clamped loop bounds never wrap a too-large window to the opposite side of
the domain. -/
theorem scanned_cells_clamped (sys : CellLinkedList) (c cell : ℕ × ℕ × ℕ)
    (h1 : 1 ≤ sys.number_of_cells_.1)
    (h2 : 1 ≤ sys.number_of_cells_.2.1)
    (h3 : 1 ≤ sys.number_of_cells_.2.2)
    (hmem : cell ∈ sys.scannedCells c) :
    (cell.1 < sys.number_of_cells_.1 ∧
      c.1 - sys.search_depth_ ≤ cell.1 ∧ cell.1 ≤ c.1 + sys.search_depth_) ∧
    (cell.2.1 < sys.number_of_cells_.2.1 ∧
      c.2.1 - sys.search_depth_ ≤ cell.2.1 ∧ cell.2.1 ≤ c.2.1 + sys.search_depth_) ∧
    (cell.2.2 < sys.number_of_cells_.2.2 ∧
      c.2.2 - sys.search_depth_ ≤ cell.2.2 ∧ cell.2.2 ≤ c.2.2 + sys.search_depth_) := by
  obtain ⟨⟨a1, b1⟩, ⟨a2, b2⟩, ⟨a3, b3⟩⟩ := mem_scannedCells.mp hmem
  omega

/-- Witness for C3: in the scenario mesh, the window of the cell `(0,2,0)`
(adjacent to the domain boundary on every axis) is clamped, and the scanned
cell `(0,1,0)` satisfies all the bounds. -/
theorem scanned_cells_clamped_witness :
    ((0:ℕ), (1:ℕ), (0:ℕ)) ∈ scenarioSystem.scannedCells (0, 2, 0) ∧
      ((0 < scenarioSystem.number_of_cells_.1 ∧
        0 - scenarioSystem.search_depth_ ≤ 0 ∧
          (0:ℕ) ≤ 0 + scenarioSystem.search_depth_) ∧
      (1 < scenarioSystem.number_of_cells_.2.1 ∧
        2 - scenarioSystem.search_depth_ ≤ 1 ∧
          (1:ℕ) ≤ 2 + scenarioSystem.search_depth_) ∧
      (0 < scenarioSystem.number_of_cells_.2.2 ∧
        0 - scenarioSystem.search_depth_ ≤ 0 ∧
          (0:ℕ) ≤ 0 + scenarioSystem.search_depth_)) := by
  have hmem : ((0:ℕ), (1:ℕ), (0:ℕ)) ∈ scenarioSystem.scannedCells (0, 2, 0) := by
    apply mem_scannedCells.mpr
    refine ⟨⟨?_, ?_⟩, ⟨?_, ?_⟩, ⟨?_, ?_⟩⟩ <;> norm_num [scenarioSystem]
  exact ⟨hmem,
    scanned_cells_clamped scenarioSystem (0, 2, 0) (0, 1, 0)
      (by norm_num [scenarioSystem]) (by norm_num [scenarioSystem])
      (by norm_num [scenarioSystem]) hmem⟩

/-- C4: rebuilding is idempotent on a static particle configuration:
a second `updateCellLists() + updateConfiguration()` yields, for every
particle, a Neighborhood with exactly the same neighbor indices as the first
rebuild, and — because `updateConfiguration` overwrites the table — the
records of the earlier rebuild never accumulate (the tables coincide
outright, whatever stale cell lists or configuration the state held before). -/
theorem rebuild_idempotent (s : SimState) :
    (∀ q j, j ∈ s.rebuild.rebuild.particle_configuration_ q ↔
      j ∈ s.rebuild.particle_configuration_ q) ∧
    s.rebuild.rebuild.particle_configuration_ =
      s.rebuild.particle_configuration_ :=
  ⟨fun _ _ => Iff.rfl, rfl⟩

/-!
 ## The Neighborhood record table and the interaction kernels reading it

`Neighborhood` is the per-particle record structure consumed by every
interaction kernel (spec §3): parallel arrays `j_`, `W_ij_`, `dW_ijV_j_`,
`r_ij_`, `e_ij_` of which the first `current_size_` entries are valid.
-/

/-- The per-particle Neighborhood: parallel record arrays plus the count of
valid records. -/
structure Neighborhood where
  j_ : List ℕ
  W_ij_ : List ℚ
  dW_ijV_j_ : List ℚ
  r_ij_ : List ℚ
  e_ij_ : List Vec3
  current_size_ : ℕ
deriving DecidableEq, Repr

/-- An empty Neighborhood (used as the out-of-range default of `List.getD`). -/
def Neighborhood.empty : Neighborhood := ⟨[], [], [], [], [], 0⟩

/-- A small helper for getting a list element with default `0`. -/
def getQ (l : List ℚ) (n : ℕ) : ℚ := l.getD n 0

/-- The state read and written by `FreeSurfaceIndicationInner::interaction`:
the inner-relation Neighborhood table and the `pos_div_` particle field. -/
structure FreeSurfaceState where
  inner_configuration_ : List Neighborhood
  pos_div_ : List ℚ
deriving Repr

/-- Embedded from `FreeSurfaceIndicationInner::interaction`
(`fluid_surface_inner.hpp` lines 41-51): starting from `0`, subtract
`dW_ijV_j_[n] * r_ij_[n]` over the records, and store the result into
`pos_div_[index_i]`. -/
def FreeSurfaceIndicationInner.interaction (s : FreeSurfaceState)
    (index_i : ℕ) : FreeSurfaceState :=
  let nb := s.inner_configuration_.getD index_i Neighborhood.empty
  let pos_div := (List.range nb.current_size_).foldl
    (fun acc n => acc - getQ nb.dW_ijV_j_ n * getQ nb.r_ij_ n) 0
  { s with pos_div_ := s.pos_div_.set index_i pos_div }

/-- The per-neighbor summand of `LaplacianInner::loopNeighbors`
(`laplacian_operators.h`, `src/unnamed/part_002` lines 488-501):
`2.0 * coefficient(i,j) * (in_variable[i] - in_variable[j]) * dW_ijV_j_[n] / r_ij_[n]`.
The division is by the raw inter-particle distance `r_ij_[n]`, with no
additive guard. -/
def laplacianNeighborTerm (c vi vj dW r : ℚ) : ℚ :=
  2 * c * (vi - vj) * dW / r

/-- A second definition following the spec's words (§7(c)): the same summand
with "a small additive epsilon in any division by distance", for comparison
with the source term `laplacianNeighborTerm`. -/
def laplacianNeighborTermSpecGuarded (c vi vj dW r eps : ℚ) : ℚ :=
  2 * c * (vi - vj) * dW / (r + eps)

/-- The state read and written by `LaplacianInner::loopNeighbors`: the
inner-relation Neighborhood table and the in/out particle fields. -/
structure LaplacianState where
  inner_configuration_ : List Neighborhood
  in_variable_ : List ℚ
  out_variable_ : List ℚ
deriving Repr

/-- Embedded from `LaplacianInner::loopNeighbors` (`src/unnamed/part_002`
lines 488-501): sum the per-neighbor terms over the records and store the
sum into `out_variable_[index_i]`. -/
def LaplacianInner.loopNeighbors (s : LaplacianState) (index_i : ℕ)
    (coefficient : ℕ → ℕ → ℚ) : LaplacianState :=
  let nb := s.inner_configuration_.getD index_i Neighborhood.empty
  let sum := (List.range nb.current_size_).foldl
    (fun acc n =>
      let index_j := nb.j_.getD n 0
      acc + laplacianNeighborTerm (coefficient index_i index_j)
        (getQ s.in_variable_ index_i) (getQ s.in_variable_ index_j)
        (getQ nb.dW_ijV_j_ n) (getQ nb.r_ij_ n)) 0
  { s with out_variable_ := s.out_variable_.set index_i sum }

/-- The denominator of the velocity-derivative division in
`ViscousForceFromFluid::interaction` (`fluid_structure_interaction` part of
`fluid_surface_inner.hpp`, lines 276-284):
`contact_neighborhood.r_ij_[n] + 0.01 * smoothing_length_k`. -/
def viscousDenom (r h : ℚ) : ℚ := r + (1 / 100) * h

/-- Per-contact-body data read by `ViscousForceFromFluid::interaction`:
viscosity, smoothing length, the foreign body's velocities, and the contact
Neighborhood table of this relation. -/
structure ContactBodyData where
  mu_ : ℚ
  smoothing_length_ : ℚ
  vel_n_ : List Vec3
  contact_configuration_ : List Neighborhood

/-- Embedded from `ViscousForceFromFluid::interaction` (lines 263-288): for
each contact body `k` and each record `n`, the velocity derivative is
`2 * (vel_ave_i - vel_n_k[j]) / (r_ij + 0.01 * h_k)` and the accumulated
force is `2 * mu_k * vel_derivative * Vol_i * dW_ijV_j[n]`. -/
def ViscousForceFromFluid.interaction (contact : List ContactBodyData)
    (Vol_ : List ℚ) (vel_ave_ : List Vec3) (index_i : ℕ) : Vec3 :=
  contact.foldl
    (fun force k =>
      let nb := k.contact_configuration_.getD index_i Neighborhood.empty
      (List.range nb.current_size_).foldl
        (fun f n =>
          let index_j := nb.j_.getD n 0
          let vel_derivative :=
            Vec3.smul (2 / viscousDenom (getQ nb.r_ij_ n) k.smoothing_length_)
              (Vec3.sub (vel_ave_.getD index_i Vec3.zero)
                (k.vel_n_.getD index_j Vec3.zero))
          Vec3.add f
            (Vec3.smul (2 * k.mu_ * getQ Vol_ index_i * getQ nb.dW_ijV_j_ n)
              vel_derivative))
        force)
    Vec3.zero

/-- C5 counterexample: for coincident particles (`r_ij = 0`) the Laplacian
kernel's per-neighbor term divides by exactly zero — its denominator carries
no additive epsilon — so the computed value collapses to `0` (the ℚ
convention for division by zero), whereas the epsilon-guarded term the spec
describes is nonzero for the same concrete record
(`c = 1, in_i = 1, in_j = 0, dW_ijV_j = 1, r_ij = 0`). -/
theorem laplacian_division_unguarded :
    laplacianNeighborTerm 1 1 0 1 0 = 0 ∧
      laplacianNeighborTermSpecGuarded 1 1 0 1 0 TinyReal ≠ 0 := by
  constructor
  · norm_num [laplacianNeighborTerm]
  · norm_num [laplacianNeighborTermSpecGuarded, TinyReal]

/-- C5 (amended): the division by inter-particle distance in
`ViscousForceFromFluid::interaction` is guarded by the additive term
`0.01 * smoothing_length`, whose denominator stays positive at zero distance;
but `LaplacianInner::loopNeighbors` divides by the raw `r_ij_` with no
additive epsilon, so at zero distance its per-neighbor term is a division by
exactly zero (collapsing to `0` in the ℚ embedding). -/
theorem division_guard_status :
    (∀ h : ℚ, 0 < h → 0 < viscousDenom 0 h) ∧
      (∀ c vi vj dW : ℚ, laplacianNeighborTerm c vi vj dW 0 = 0) := by
  constructor
  · intro h hh
    unfold viscousDenom
    linarith
  · intro c vi vj dW
    unfold laplacianNeighborTerm
    rw [div_zero]

/-- Witness for the amended C5 at a concrete smoothing length. -/
theorem division_guard_status_witness :
    0 < viscousDenom 0 1 ∧ laplacianNeighborTerm 1 1 0 1 0 = 0 :=
  ⟨division_guard_status.1 1 (by norm_num), division_guard_status.2 1 1 0 1⟩

/-- C7: the interaction kernels read the Neighborhood table without writing
it: `FreeSurfaceIndicationInner::interaction` and
`LaplacianInner::loopNeighbors` leave `inner_configuration_` exactly as it
was after `updateConfiguration()` returned, while mutating only their own
particle fields (`pos_div_`, `out_variable_`). -/
theorem kernels_preserve_neighborhood_table :
    (∀ (s : FreeSurfaceState) (index_i : ℕ),
      (FreeSurfaceIndicationInner.interaction s index_i).inner_configuration_ =
        s.inner_configuration_) ∧
    (∀ (s : LaplacianState) (index_i : ℕ) (coefficient : ℕ → ℕ → ℚ),
      (LaplacianInner.loopNeighbors s index_i coefficient).inner_configuration_ =
        s.inner_configuration_) :=
  ⟨fun _ _ => rfl, fun _ _ _ => rfl⟩

/-!
 ## Coefficient evolution and plastic hardening updates
-/

/-- Embedded from `CoefficientEvolutionExplicitTem::update`
(`shell_shell_collision_bugFix.cpp` lines 470-475):
`increment = change_rate * dt`; when the increment is negative it is scaled
by `theta = SMIN((0.01 + Eps - eta) / increment, 1.0)`, otherwise applied in
full; the result is `eta + increment * theta`. -/
def CoefficientEvolutionExplicitTem.update (eta change_rate dt : ℚ) : ℚ :=
  let increment := change_rate * dt
  let theta := if increment < 0 then min ((1 / 100 + Eps - eta) / increment) 1 else 1
  eta + increment * theta

/-- C8: the explicit coefficient evolution never drives the diffusion
coefficient below its floor: whenever `eta ≥ 0.01 + Eps` before the update,
then for every change rate and every `dt ≥ 0` the updated value still
satisfies `eta ≥ 0.01 + Eps`, because a negative increment is scaled by the
limiter `theta`. -/
theorem coefficient_floor_invariant (eta change_rate dt : ℚ)
    (heta : 1 / 100 + Eps ≤ eta) (hdt : 0 ≤ dt) :
    1 / 100 + Eps ≤ CoefficientEvolutionExplicitTem.update eta change_rate dt := by
  unfold CoefficientEvolutionExplicitTem.update
  set F : ℚ := 1 / 100 + Eps with hF
  set increment : ℚ := change_rate * dt with hinc
  by_cases hneg : increment < 0
  · simp only [hneg, if_true]
    rcases le_or_lt ((F - eta) / increment) 1 with hle | hgt
    · rw [min_eq_left hle, mul_div_cancel₀ _ (ne_of_lt hneg)]
      linarith
    · rw [min_eq_right hgt.le, mul_one]
      have : F - eta < increment := by
        have h2 := (one_lt_div_of_neg hneg).mp hgt
        linarith
      linarith
  · simp only [hneg, if_false]
    push_neg at hneg
    nlinarith

/-- Witness for C8: starting at `eta = 1` with a strongly negative increment
(`change_rate = -500, dt = 1`), the updated coefficient still respects the
floor `0.01 + Eps`. -/
theorem coefficient_floor_invariant_witness :
    1 / 100 + Eps ≤ CoefficientEvolutionExplicitTem.update 1 (-500) 1 :=
  coefficient_floor_invariant 1 (-500) 1
    (by norm_num [Eps]) (by norm_num)

/-- Embedded from `HardeningPlasticSolid::PlasticConstitutiveRelation`
(`src/unnamed/part_003` lines 22-45), restricted to the hardening-parameter
update it performs: with `trial_function = deviatoric_PK_norm -
sqrt_2_over_3 * (hardening_modulus * hardening_parameter + yield_stress)`,
when the trial function is positive the parameter grows by `sqrt_2_over_3 *
relax_increment` with `relax_increment = 0.5 * trial_function /
(renormalized_shear_modulus + hardening_modulus / 3)`, and is left unchanged
otherwise.  The scalars `deviatoric_PK_norm` (a matrix norm) and
`renormalized_shear_modulus = normalized_be_isentropic * G0` are taken as
inputs since they involve real square roots; the constant `sqrt_2_over_3 =
sqrt(2/3)` is likewise a nonnegative input. -/
def HardeningPlasticSolid.hardeningParameterUpdate
    (hardening_parameter deviatoric_PK_norm renormalized_shear_modulus
      hardening_modulus yield_stress sqrt_2_over_3 : ℚ) : ℚ :=
  let trial_function := deviatoric_PK_norm -
    sqrt_2_over_3 * (hardening_modulus * hardening_parameter + yield_stress)
  if 0 < trial_function then
    hardening_parameter + sqrt_2_over_3 *
      (1 / 2 * trial_function / (renormalized_shear_modulus + hardening_modulus / 3))
  else hardening_parameter

/-- C9: the plastic constitutive relation never decreases the hardening
parameter: for a positive trial shear modulus (and the material's
nonnegative hardening modulus and the nonnegative constant `sqrt(2/3)`), the
updated parameter is at least the old one — it grows by `sqrt(2/3)` times a
nonnegative relax increment when the trial yield function is positive and is
unchanged otherwise. -/
theorem hardening_parameter_monotone
    (hardening_parameter deviatoric_PK_norm renormalized_shear_modulus
      hardening_modulus yield_stress sqrt_2_over_3 : ℚ)
    (hmu : 0 < renormalized_shear_modulus)
    (hH : 0 ≤ hardening_modulus)
    (hs : 0 ≤ sqrt_2_over_3) :
    hardening_parameter ≤
      HardeningPlasticSolid.hardeningParameterUpdate hardening_parameter
        deviatoric_PK_norm renormalized_shear_modulus hardening_modulus
        yield_stress sqrt_2_over_3 := by
  unfold HardeningPlasticSolid.hardeningParameterUpdate
  set trial_function : ℚ := deviatoric_PK_norm -
    sqrt_2_over_3 * (hardening_modulus * hardening_parameter + yield_stress)
  by_cases htf : 0 < trial_function
  · simp only [htf, if_true]
    have hden : 0 < renormalized_shear_modulus + hardening_modulus / 3 := by
      linarith
    have hrelax : 0 ≤ 1 / 2 * trial_function /
        (renormalized_shear_modulus + hardening_modulus / 3) := by
      positivity
    nlinarith
  · simp only [htf, if_false]
    exact le_refl _

/-- Witness for C9 exercising the positive-trial branch: with a large
deviatoric stress norm the trial function is positive and the hardening
parameter grows from `0`. -/
theorem hardening_parameter_monotone_witness :
    (0 : ℚ) ≤ HardeningPlasticSolid.hardeningParameterUpdate 0 10 1 1 1 (4 / 5) :=
  hardening_parameter_monotone 0 10 1 1 1 (4 / 5)
    (by norm_num) (by norm_num) (by norm_num)

/-!
 ## Driver traces: ordering of periodic bounding, cell-list and configuration rebuilds

The two cited `main` drivers are embedded at the level of the operations
their per-step loop bodies execute, in program order.  Conditionally executed
output/diagnostic blocks are included unconditionally (they only add
operations after the configuration rebuild or before the bounding, so the
ordering property is only strengthened), and the inner acoustic loop of the
integration driver is represented by one unrolled iteration.
-/

/-- The kinds of operations a driver's step executes, as far as the rebuild
ordering is concerned. -/
inductive SimOp where
  | bounding
  | cellLinkedListUpdate
  | ghostCellLinkedListUpdate
  | configurationUpdate
  | physicsKernel
  | fileOutput
deriving DecidableEq, Repr

open SimOp

/-- The relaxation loop body of `relaxation_evolution.cpp`
(`src/unnamed/part_000` lines 96-120): `bounding_` on both axes, the body's
cell-linked-list rebuild, the two periodic ghost-cell injections, the
configuration rebuild, then the relaxation step and the (conditional)
kinetic-energy/residue diagnostics and output. -/
def relaxationLoopBody : List SimOp :=
  [bounding, bounding,
    cellLinkedListUpdate,
    ghostCellLinkedListUpdate, ghostCellLinkedListUpdate,
    configurationUpdate,
    physicsKernel,
    physicsKernel, fileOutput,
    physicsKernel, fileOutput, fileOutput]

/-- The integration loop body of `2d_flow_around_cylinder.cpp`
(`src/unnamed/part_004` lines 190-235): the physics kernels of the advection
step, one unrolled acoustic sub-iteration, the screen output, then the
periodic bounding on both axes, the system cell-linked-list rebuild, the two
ghost-cell injections and the configuration rebuild. -/
def integrationLoopBody : List SimOp :=
  [physicsKernel, physicsKernel, physicsKernel, physicsKernel, physicsKernel,
    physicsKernel,
    physicsKernel, physicsKernel, physicsKernel, physicsKernel, physicsKernel,
    fileOutput,
    bounding, bounding,
    cellLinkedListUpdate,
    ghostCellLinkedListUpdate, ghostCellLinkedListUpdate,
    configurationUpdate]

/-- A step trace performs every periodic bounding strictly before every
cell-linked-list rebuild, every cell-linked-list rebuild strictly before
every configuration rebuild, and no physics kernel runs between a bounding
and a configuration rebuild. -/
def orderedRebuild (t : List SimOp) : Prop :=
  (∀ i j : Fin t.length, t.get i = bounding → t.get j = cellLinkedListUpdate →
    i < j) ∧
  (∀ i j : Fin t.length, t.get i = cellLinkedListUpdate →
    t.get j = configurationUpdate → i < j) ∧
  (∀ i j k : Fin t.length, t.get i = bounding → t.get j = configurationUpdate →
    t.get k = physicsKernel → k < i ∨ j < k)

/-- C6: in both cited drivers' loop bodies, whenever periodic conditions are
active, the periodic bounding runs strictly before the cell-linked-list
rebuild, which runs strictly before the configuration rebuild, and no
physics kernel runs between those operations. -/
theorem periodic_rebuild_ordering :
    orderedRebuild relaxationLoopBody ∧ orderedRebuild integrationLoopBody := by
  constructor <;> refine ⟨?_, ?_, ?_⟩ <;> decide

/-!
 ## ParticleSmoothing and its order independence
-/

/-- The state read and written by `ParticleSmoothing` (`general_dynamics.h`,
`src/unnamed/part_002` lines 149-186): the smoothed field and its temporary
double buffer. -/
structure SmoothingState where
  smoothed_ : List ℚ
  temp_ : List ℚ
deriving DecidableEq, Repr

/-- The value `ParticleSmoothing::interaction` computes for particle
`index_i`: `summation / (weight + TinyReal)` with `weight = W0 + Σ W_ij[n]`
and `summation = W0 * smoothed[index_i] + Σ W_ij[n] * smoothed[j[n]]`. -/
def ParticleSmoothing.interactionValue (config : List Neighborhood) (W0 : ℚ)
    (smoothed : List ℚ) (index_i : ℕ) : ℚ :=
  let nb := config.getD index_i Neighborhood.empty
  let weight := (List.range nb.current_size_).foldl
    (fun w n => w + getQ nb.W_ij_ n) W0
  let summation := (List.range nb.current_size_).foldl
    (fun sm n => sm + getQ nb.W_ij_ n * getQ smoothed (nb.j_.getD n 0))
    (W0 * getQ smoothed index_i)
  summation / (weight + TinyReal)

/-- Embedded from `ParticleSmoothing::interaction` (lines 164-176): reads the
smoothed field and the Neighborhood table and writes only the particle's own
temporary slot `temp_[index_i]`. -/
def ParticleSmoothing.interaction (config : List Neighborhood) (W0 : ℚ)
    (s : SmoothingState) (index_i : ℕ) : SmoothingState :=
  let v := ParticleSmoothing.interactionValue config W0 s.smoothed_ index_i
  { s with temp_ := s.temp_.set index_i v }

/-- Embedded from `ParticleSmoothing::update` (lines 178-181): writes only
`smoothed_[index_i] := temp_[index_i]`. -/
def ParticleSmoothing.update (s : SmoothingState) (index_i : ℕ) : SmoothingState :=
  { s with smoothed_ := s.smoothed_.set index_i (getQ s.temp_ index_i) }

/-- A phase of a two-phase dynamics: execute the per-particle step over a
list of particle indices, in that order. -/
def runPhase (step : SmoothingState → ℕ → SmoothingState) (order : List ℕ)
    (s : SmoothingState) : SmoothingState :=
  order.foldl step s

theorem getD_set_q (l : List ℚ) (i j : ℕ) (v : ℚ) :
    getQ (l.set i v) j = if j = i ∧ i < l.length then v else getQ l j := by
  unfold getQ
  rcases eq_or_ne j i with rfl | hne
  · rcases Nat.lt_or_ge j l.length with h | h
    · simp [List.getD, List.getElem?_set, h]
    · simp [List.getD, List.getElem?_set, Nat.not_lt.mpr h, List.getElem?_eq_none h]
  · simp [List.getD, List.getElem?_set, hne.symm, hne]

theorem runPhase_cons (step : SmoothingState → ℕ → SmoothingState) (a : ℕ)
    (o : List ℕ) (s : SmoothingState) :
    runPhase step (a :: o) s = runPhase step o (step s a) := rfl

theorem interaction_phase_smoothed (config : List Neighborhood) (W0 : ℚ)
    (o : List ℕ) (s : SmoothingState) :
    (runPhase (ParticleSmoothing.interaction config W0) o s).smoothed_ =
      s.smoothed_ := by
  induction o generalizing s with
  | nil => rfl
  | cons a o ih => exact ih _

theorem interaction_phase_temp_length (config : List Neighborhood) (W0 : ℚ)
    (o : List ℕ) (s : SmoothingState) :
    (runPhase (ParticleSmoothing.interaction config W0) o s).temp_.length =
      s.temp_.length := by
  induction o generalizing s with
  | nil => rfl
  | cons a o ih =>
    rw [runPhase_cons, ih]
    simp [ParticleSmoothing.interaction]

theorem interaction_phase_temp_getD (config : List Neighborhood) (W0 : ℚ)
    (o : List ℕ) (s : SmoothingState) (i : ℕ) :
    getQ (runPhase (ParticleSmoothing.interaction config W0) o s).temp_ i =
      if i ∈ o ∧ i < s.temp_.length then
        ParticleSmoothing.interactionValue config W0 s.smoothed_ i
      else getQ s.temp_ i := by
  induction o generalizing s with
  | nil => simp [runPhase]
  | cons a o ih =>
    rw [runPhase_cons, ih]
    simp only [ParticleSmoothing.interaction, List.length_set, List.mem_cons]
    by_cases ho : i ∈ o <;> by_cases hlen : i < s.temp_.length <;>
      rcases eq_or_ne i a with rfl | hne <;>
      simp_all [getD_set_q]

theorem update_phase_temp (o : List ℕ) (s : SmoothingState) :
    (runPhase ParticleSmoothing.update o s).temp_ = s.temp_ := by
  induction o generalizing s with
  | nil => rfl
  | cons a o ih => exact ih _

theorem update_phase_smoothed_getD (o : List ℕ) (s : SmoothingState) (i : ℕ) :
    getQ (runPhase ParticleSmoothing.update o s).smoothed_ i =
      if i ∈ o ∧ i < s.smoothed_.length then getQ s.temp_ i
      else getQ s.smoothed_ i := by
  induction o generalizing s with
  | nil => simp [runPhase]
  | cons a o ih =>
    rw [runPhase_cons, ih]
    simp only [ParticleSmoothing.update, List.length_set, List.mem_cons]
    by_cases ho : i ∈ o <;> by_cases hlen : i < s.smoothed_.length <;>
      rcases eq_or_ne i a with rfl | hne <;>
      simp_all [getD_set_q]

/-- The final smoothed field of a full interaction-then-update pass over two
covering orders, expressed pointwise. -/
theorem two_phase_smoothed_getD (config : List Neighborhood) (W0 : ℚ)
    (s0 : SmoothingState) (o1 o2 : List ℕ)
    (hlen : s0.temp_.length = s0.smoothed_.length)
    (h1 : ∀ i, i < s0.smoothed_.length → i ∈ o1)
    (h2 : ∀ i, i < s0.smoothed_.length → i ∈ o2)
    (i : ℕ) (hi : i < s0.smoothed_.length) :
    getQ (runPhase ParticleSmoothing.update o2
        (runPhase (ParticleSmoothing.interaction config W0) o1 s0)).smoothed_ i =
      ParticleSmoothing.interactionValue config W0 s0.smoothed_ i := by
  rw [update_phase_smoothed_getD, interaction_phase_smoothed]
  simp only [h2 i hi, hi, and_self, if_true]
  rw [interaction_phase_temp_getD]
  simp [h1 i hi, hlen, hi]

theorem update_phase_smoothed_length (o : List ℕ) (s : SmoothingState) :
    (runPhase ParticleSmoothing.update o s).smoothed_.length =
      s.smoothed_.length := by
  induction o generalizing s with
  | nil => rfl
  | cons a o ih =>
    rw [runPhase_cons, ih]
    simp [ParticleSmoothing.update]

/-- C10: `ParticleSmoothing` is order-independent across particles:
`interaction(index_i)` writes only `temp_[index_i]` while reading the
smoothed field, and `update(index_i)` writes only `smoothed_[index_i]` from
`temp_[index_i]`; hence for a fixed Neighborhood table and initial smoothed
field, running the interaction phase over all particles in any order and
then the update phase over all particles in any order yields the same final
smoothed field, whatever the two processing orders were. -/
theorem particle_smoothing_order_independent (config : List Neighborhood)
    (W0 : ℚ) (s0 : SmoothingState) (o1 o2 o1' o2' : List ℕ)
    (hlen : s0.temp_.length = s0.smoothed_.length)
    (h1 : ∀ i, i < s0.smoothed_.length → i ∈ o1)
    (h2 : ∀ i, i < s0.smoothed_.length → i ∈ o2)
    (h1' : ∀ i, i < s0.smoothed_.length → i ∈ o1')
    (h2' : ∀ i, i < s0.smoothed_.length → i ∈ o2') :
    (runPhase ParticleSmoothing.update o2
        (runPhase (ParticleSmoothing.interaction config W0) o1 s0)).smoothed_ =
      (runPhase ParticleSmoothing.update o2'
        (runPhase (ParticleSmoothing.interaction config W0) o1' s0)).smoothed_ := by
  have lenA : (runPhase ParticleSmoothing.update o2
      (runPhase (ParticleSmoothing.interaction config W0) o1 s0)).smoothed_.length =
      s0.smoothed_.length := by
    rw [update_phase_smoothed_length, interaction_phase_smoothed]
  have lenB : (runPhase ParticleSmoothing.update o2'
      (runPhase (ParticleSmoothing.interaction config W0) o1' s0)).smoothed_.length =
      s0.smoothed_.length := by
    rw [update_phase_smoothed_length, interaction_phase_smoothed]
  apply List.ext_getElem (lenA.trans lenB.symm)
  intro i hiA hiB
  have hi : i < s0.smoothed_.length := lenA ▸ hiA
  have eA := two_phase_smoothed_getD config W0 s0 o1 o2 hlen h1 h2 i hi
  have eB := two_phase_smoothed_getD config W0 s0 o1' o2' hlen h1' h2' i hi
  unfold getQ at eA eB
  rw [List.getD_eq_getElem _ _ hiA] at eA
  rw [List.getD_eq_getElem _ _ hiB] at eB
  rw [eA, eB]

/-- A two-particle Neighborhood table for the C10 witness: each particle has
the other as its single neighbor with kernel value `1/2`. -/
def witnessConfig : List Neighborhood :=
  [⟨[1], [1/2], [1/2], [1/2], [⟨0, 1/2, 0⟩], 1⟩,
    ⟨[0], [1/2], [1/2], [1/2], [⟨0, -(1/2), 0⟩], 1⟩]

/-- The initial smoothing state for the C10 witness. -/
def witnessSmoothingState : SmoothingState :=
  { smoothed_ := [3, 5], temp_ := [0, 0] }

/-- Witness for C10: on a concrete two-particle state, processing the
interaction phase in order `[0,1]` and the update phase in order `[1,0]`
gives the same smoothed field as processing the phases in orders `[1,0]`
and `[0,1]`. -/
theorem particle_smoothing_order_independent_witness :
    (runPhase ParticleSmoothing.update [1, 0]
        (runPhase (ParticleSmoothing.interaction witnessConfig 1) [0, 1]
          witnessSmoothingState)).smoothed_ =
      (runPhase ParticleSmoothing.update [0, 1]
        (runPhase (ParticleSmoothing.interaction witnessConfig 1) [1, 0]
          witnessSmoothingState)).smoothed_ :=
  particle_smoothing_order_independent witnessConfig 1 witnessSmoothingState
    [0, 1] [1, 0] [1, 0] [0, 1] rfl
    (by intro i hi; simp only [witnessSmoothingState, List.length_cons,
      List.length_nil, List.mem_cons, List.not_mem_nil, or_false] at hi ⊢; omega)
    (by intro i hi; simp only [witnessSmoothingState, List.length_cons,
      List.length_nil, List.mem_cons, List.not_mem_nil, or_false] at hi ⊢; omega)
    (by intro i hi; simp only [witnessSmoothingState, List.length_cons,
      List.length_nil, List.mem_cons, List.not_mem_nil, or_false] at hi ⊢; omega)
    (by intro i hi; simp only [witnessSmoothingState, List.length_cons,
      List.length_nil, List.mem_cons, List.not_mem_nil, or_false] at hi ⊢; omega)
